import Mathlib

/-!
Verification of the splinter scabbard state-migration CLI and related
library components against their natural-language specification.

The definitions below are a shallow embedding of the Rust source:

* `RoleBuilder.build`        from cli/src/action/api/rbac/roles.rs
* `IntoMessageSender.send`   from libsplinter/src/service/message_sender.rs
* `copy_state`, `write_and_prune_with_cleanup`, `migrateService`,
  `servicesLoop`, `stateMigrateRun`
                             from cli/src/action/database/state/mod.rs

The Merkle state store itself (commit / prune / filter_iter) lives in the
transact crate and in merkle.rs, outside the inspected sources, so its
contract is modelled from the specification (see `commit` below).
-/

set_option maxHeartbeats 1000000
set_option maxRecDepth 4000

/-- A key/value leaf of the Merkle state tree: key is a string, value a
byte sequence (modelled as a list of naturals). -/
abbrev KV := String × List Nat

/-- Modelled from the spec: a root hash is a content-derived identifier of a
complete state snapshot, and a root uniquely determines its reachable
key/value set.  We therefore identify a root with the canonical (sorted,
duplicate-free) association list of its reachable entries: two snapshots
with the same content have the same root, and distinct canonical contents
have distinct roots (collision-freedom of the content hash). The concrete
hashing lives in the transact crate, outside the inspected sources. -/
abbrev Root := List KV

/-- A single state change, mirroring transact StateChange:
Set {key, value} or Delete {key}. -/
inductive StateChange where
  | set (key : String) (value : List Nat)
  | delete (key : String)
deriving DecidableEq, Repr

/-- Insert a key/value pair into a canonical association list, keeping it
sorted by key and duplicate-free (last write per key wins). -/
def insertKV : List KV → String → List Nat → List KV
  | [], k, v => [(k, v)]
  | (k', v') :: rest, k, v =>
    if k < k' then (k, v) :: (k', v') :: rest
    else if k = k' then (k, v) :: rest
    else (k', v') :: insertKV rest k v

/-- Remove a key from a canonical association list. -/
def deleteKV : List KV → String → List KV
  | [], _ => []
  | (k', v') :: rest, k =>
    if k = k' then rest else (k', v') :: deleteKV rest k

/-- Apply one state change to a snapshot. -/
def applyStateChange (m : Root) : StateChange → Root
  | StateChange.set k v => insertKV m k v
  | StateChange.delete k => deleteKV m k

/-- Modelled from the spec: commit(base_root, changes) -> new_root is a
deterministic function of (base_root, changes); the resulting root is the
content address of the snapshot obtained by applying the ordered changes to
the base snapshot.  The concrete implementation is in the transact crate,
outside the inspected sources. -/
def commit (base : Root) (changes : List StateChange) : Root :=
  changes.foldl applyStateChange base

/-- The operations of the Merkle state store contract, recorded as a trace
so that theorems can speak about which store operations a code path
invokes and in which order. -/
inductive StoreOp where
  | commitOp (base : Root) (changes : List StateChange)
  | pruneOp (roots : List Root)
  | removePrunedEntries
  | filterIter (root : Root)
  | getStateRoot
  | deleteTree
  | hasTree
deriving DecidableEq, Repr

/-- Which of the two stores an operation was invoked on. -/
inductive Side where
  | source
  | dest
deriving DecidableEq, Repr

/-- A trace of store operations, each tagged with the store it hit. -/
abbrev Trace := List (Side × StoreOp)

/-- Store operations that mutate a store; reads (filter_iter,
get_state_root, has_tree) are not mutations. -/
def isMutation : StoreOp → Bool
  | StoreOp.commitOp _ _ => true
  | StoreOp.pruneOp _ => true
  | StoreOp.removePrunedEntries => true
  | StoreOp.deleteTree => true
  | _ => false

/-- Embedding of write_and_prune_with_cleanup (state/mod.rs lines 381-402):
commit the accumulated changes onto state_id, prune the previous state id,
then remove the pruned entries; returns the new state id together with the
operations performed on the destination store. -/
def write_and_prune_with_cleanup (state_id : Root) (state_changes : List StateChange) :
    Root × List StoreOp :=
  let next_state_id := commit state_id state_changes
  (next_state_id,
    [StoreOp.commitOp state_id state_changes,
     StoreOp.pruneOp [state_id],
     StoreOp.removePrunedEntries])

/-- Embedding of the batching loop of copy_state (state/mod.rs lines
341-369): each leaf read from the source is pushed as a Set change and the
count incremented; when the count exceeds 1000 the accumulated batch is
flushed via write_and_prune_with_cleanup and the accumulator reset; after
the loop the remainder batch is flushed unconditionally.  Returns the final
state id together with the destination-store operations in order. -/
def copyStateGo : List KV → Nat → Root → List StateChange → Root × List StoreOp
  | [], _, last_state_id, state_changes =>
    write_and_prune_with_cleanup last_state_id state_changes
  | (key, value) :: rest, count, last_state_id, state_changes =>
    let state_changes' := state_changes ++ [StateChange.set key value]
    if count + 1 > 1000 then
      let step := write_and_prune_with_cleanup last_state_id state_changes'
      let restRun := copyStateGo rest 0 step.1 []
      (restRun.1, step.2 ++ restRun.2)
    else
      copyStateGo rest (count + 1) last_state_id state_changes'

/-- Errors surfaced by the migration paths modelled here. -/
inductive MigErr where
  | noCommitHash
  | conflict
  | hashMismatch
  | unsupportedBackends
deriving DecidableEq, Repr

/-- Embedding of copy_state (state/mod.rs lines 330-379): enumerate the
leaves reachable from current_commit_hash in the source (the enumeration
result is the `entries` argument), read the writer state root, run the
batching loop from the writer root, and finally compare the resulting
state id against current_commit_hash, failing with a hash-mismatch error
when they differ. -/
def copy_state (entries : List KV) (current_commit_hash : Root) (writerInit : Root) :
    Except MigErr Unit × Trace :=
  let run := copyStateGo entries 0 writerInit []
  let trace : Trace :=
    (Side.source, StoreOp.filterIter current_commit_hash)
      :: (Side.dest, StoreOp.getStateRoot)
      :: run.2.map (fun op => (Side.dest, op))
  if run.1 = current_commit_hash then (Except.ok (), trace)
  else (Except.error MigErr.hashMismatch, trace)

/-- Embedding of the per-circuit-service body of StateMigrateAction::run
(state/mod.rs lines 207-276): fetch the current commit hash (error when
absent), run the pre-flight conflict check (has_tree on the destination,
skipped when force is set), skip the copy entirely on dry_run, and
otherwise run copy_state, deleting the source tree on success and the
destination tree on failure. -/
def migrateService (dry_run force : Bool) (commitHash : Option Root)
    (destHasTree : Bool) (entries : List KV) (destInit : Root) :
    Except MigErr Unit × Trace :=
  match commitHash with
  | none => (Except.error MigErr.noCommitHash, [])
  | some ch =>
    let preflight : Trace := if force then [] else [(Side.dest, StoreOp.hasTree)]
    if !force && destHasTree then
      (Except.error MigErr.conflict, preflight)
    else if dry_run then
      (Except.ok (), preflight)
    else
      let run := copy_state entries ch destInit
      match run.1 with
      | Except.ok () =>
        (Except.ok (), preflight ++ run.2 ++ [(Side.source, StoreOp.deleteTree)])
      | Except.error e =>
        (Except.error e, preflight ++ run.2 ++ [(Side.dest, StoreOp.deleteTree)])

/-- The per-service inputs of one migration run: the stored commit hash of
the service, whether the destination already holds a tree for it, the
leaves enumerable from the commit hash in the source, and the initial state
root of the destination. -/
structure ServiceInput where
  commitHash : Option Root
  destHasTree : Bool
  entries : List KV
  destInit : Root
deriving DecidableEq, Repr

/-- The loop over local scabbard circuit-services in StateMigrateAction::run
(state/mod.rs lines 207-277): services are processed in order and the first
error aborts the run. -/
def servicesLoop (dry_run force : Bool) : List ServiceInput → Except MigErr Unit × Trace
  | [] => (Except.ok (), [])
  | s :: rest =>
    let run := migrateService dry_run force s.commitHash s.destHasTree s.entries s.destInit
    match run.1 with
    | Except.ok () =>
      let restRun := servicesLoop dry_run force rest
      (restRun.1, run.2 ++ restRun.2)
    | Except.error e => (Except.error e, run.2)

/-- ASCII lowercase of a character, mirroring what Rust to_lowercase does on
the ASCII identifiers compared here. -/
def lowerChar (c : Char) : Char :=
  if 65 ≤ c.toNat ∧ c.toNat ≤ 90 then Char.ofNat (c.toNat + 32) else c

/-- Lowercase of a string, used for the case-insensitive LMDB check. -/
def lowerStr (s : String) : String :=
  String.mk (s.data.map lowerChar)

/-- Embedding of StateMigrateAction::run (state/mod.rs lines 91-117 and the
service loop): the in/out backend identifiers are lowercased and matched;
LMDB to LMDB is rejected, exactly one LMDB side proceeds to the service
loop, and neither side LMDB is rejected; both rejections happen before any
store is touched (empty trace). -/
def stateMigrateRun (in_database out_database : String) (dry_run force : Bool)
    (services : List ServiceInput) : Except MigErr Unit × Trace :=
  if lowerStr in_database = "lmdb" ∧ lowerStr out_database = "lmdb" then
    (Except.error MigErr.unsupportedBackends, [])
  else if lowerStr out_database = "lmdb" then
    servicesLoop dry_run force services
  else if lowerStr in_database = "lmdb" then
    servicesLoop dry_run force services
  else
    (Except.error MigErr.unsupportedBackends, [])

/-- Add a freshly committed root to the set of retained roots of a store;
content addressing means an already-present root stays as is. -/
def addRoot (roots : List Root) (r : Root) : List Root :=
  if r ∈ roots then roots else roots ++ [r]

/-- Replay a destination-store operation list over the set of retained
roots: a commit retains the new root, a prune drops the named roots, the
other operations do not change which roots are retained. -/
def replayRetained (roots : List Root) : List StoreOp → List Root
  | [] => roots
  | StoreOp.commitOp base cs :: rest =>
    replayRetained (addRoot roots (commit base cs)) rest
  | StoreOp.pruneOp rs :: rest =>
    replayRetained (roots.filter (fun r => decide (r ∉ rs))) rest
  | _ :: rest => replayRetained roots rest

/-- The batches committed by a destination-store operation list, in order. -/
def batchesOf (ops : List StoreOp) : List (List StateChange) :=
  ops.filterMap fun op =>
    match op with
    | StoreOp.commitOp _ b => some b
    | _ => none

/-- The base roots of the commits of a destination-store operation list. -/
def commitBasesOf (ops : List StoreOp) : List Root :=
  ops.filterMap fun op =>
    match op with
    | StoreOp.commitOp r _ => some r
    | _ => none

/-- The roots pruned by a destination-store operation list. -/
def prunedRootsOf (ops : List StoreOp) : List Root :=
  ops.foldr (fun op acc =>
    match op with
    | StoreOp.pruneOp rs => rs ++ acc
    | _ => acc) []

lemma commit_append (r : Root) (a b : List StateChange) :
    commit r (a ++ b) = commit (commit r a) b := by
  simp [commit, List.foldl_append]

lemma copyStateGo_root :
    ∀ (entries : List KV) (count : Nat) (last : Root) (changes : List StateChange),
      (copyStateGo entries count last changes).1 =
        commit last (changes ++ entries.map fun kv => StateChange.set kv.1 kv.2) := by
  intro entries
  induction entries with
  | nil => intro count last changes; simp [copyStateGo, write_and_prune_with_cleanup]
  | cons kv rest ih =>
    obtain ⟨k, v⟩ := kv
    intro count last changes
    by_cases h : count + 1 > 1000
    · simp only [copyStateGo, if_pos h, write_and_prune_with_cleanup]
      rw [ih]
      simp [← commit_append, List.append_assoc]
    · simp only [copyStateGo, if_neg h]
      rw [ih]
      simp

/-- Claim C5: migrating any sequence of source entries through the chunked
commit loop of copy_state yields the same final destination root as
committing all of the entries onto the initial destination root in a
single unchunked pass; 2500 entries (three batches) are the special case
of this equation. -/
theorem copy_state_chunking_transparent (entries : List KV) (destInit : Root) :
    (copyStateGo entries 0 destInit []).1 =
      commit destInit (entries.map fun kv => StateChange.set kv.1 kv.2) := by
  simpa using copyStateGo_root entries 0 destInit []

/-- Claim C7: committing an empty batch of state changes onto any root
returns the root unchanged and leaves the retained roots of the store
identical; the final flush of the copy_state loop, which may commit an
empty remainder batch, therefore also returns its input root unchanged. -/
theorem commit_empty_batch_noop :
    (∀ r : Root, commit r [] = r) ∧
    (∀ (roots : List Root) (r : Root), r ∈ roots → addRoot roots (commit r []) = roots) ∧
    (∀ (c : Nat) (r : Root), (copyStateGo [] c r []).1 = r) := by
  refine ⟨fun r => rfl, fun roots r h => ?_, fun c r => rfl⟩
  simp [commit, addRoot, h]

/-- Witness for commit_empty_batch_noop at a concrete store holding one
root. -/
theorem commit_empty_batch_noop_witness :
    addRoot [[("a", [1])]] (commit [("a", [1])] []) = [[("a", [1])]] :=
  commit_empty_batch_noop.2.1 [[("a", [1])]] [("a", [1])] (by decide)

/-- The shape of the destination-store trace produced by the batching loop:
a sequence of batch triples, each committing onto the current root, then
pruning exactly that previous root, then reclaiming the pruned entries,
with the roots chained from the start root to the final root. -/
inductive ChunkedTrace : Root → List StoreOp → Root → Prop where
  | nil (r : Root) : ChunkedTrace r [] r
  | step (r : Root) (b : List StateChange) (rest : List StoreOp) (final : Root) :
      ChunkedTrace (commit r b) rest final →
      ChunkedTrace r
        (StoreOp.commitOp r b :: StoreOp.pruneOp [r] :: StoreOp.removePrunedEntries :: rest)
        final

lemma copyStateGo_chunked :
    ∀ (entries : List KV) (count : Nat) (last : Root) (changes : List StateChange),
      ChunkedTrace last (copyStateGo entries count last changes).2
        (copyStateGo entries count last changes).1 := by
  intro entries
  induction entries with
  | nil =>
    intro count last changes
    simpa [copyStateGo, write_and_prune_with_cleanup] using
      ChunkedTrace.step last changes [] (commit last changes) (ChunkedTrace.nil _)
  | cons kv rest ih =>
    obtain ⟨k, v⟩ := kv
    intro count last changes
    by_cases h : count + 1 > 1000
    · simp only [copyStateGo, if_pos h, write_and_prune_with_cleanup]
      exact ChunkedTrace.step _ _ _ _ (ih 0 _ [])
    · simp only [copyStateGo, if_neg h]
      exact ih _ _ _

lemma chunked_pruned_eq_bases {r : Root} {ops : List StoreOp} {f : Root}
    (h : ChunkedTrace r ops f) : prunedRootsOf ops = commitBasesOf ops := by
  induction h with
  | nil r => rfl
  | step r b rest final htail ih =>
    simp [prunedRootsOf, commitBasesOf] at ih ⊢
    exact ih

lemma chunked_start_mem {r : Root} {ops : List StoreOp} {f : Root}
    (h : ChunkedTrace r ops f) : r ∈ commitBasesOf ops ++ [f] := by
  cases h with
  | nil => simp [commitBasesOf]
  | step r b rest final htail => simp [commitBasesOf]

lemma chunked_retained {r : Root} {ops : List StoreOp} {f : Root}
    (h : ChunkedTrace r ops f) (hnd : (commitBasesOf ops ++ [f]).Nodup) :
    replayRetained [r] ops = [f] := by
  induction h with
  | nil r => rfl
  | step r b rest final htail ih =>
    have hbases : commitBasesOf
        (StoreOp.commitOp r b :: StoreOp.pruneOp [r] :: StoreOp.removePrunedEntries :: rest)
        = r :: commitBasesOf rest := by
      simp [commitBasesOf]
    rw [hbases] at hnd
    have hsplit : (r ∉ commitBasesOf rest ∧ ¬r = final) ∧
        (commitBasesOf rest ++ [final]).Nodup := by simpa using hnd
    have hr : r ∉ commitBasesOf rest ++ [final] := by
      simp only [List.mem_append, List.mem_singleton]
      rintro (hin | hin)
      · exact hsplit.1.1 hin
      · exact hsplit.1.2 hin
    have hnd' : (commitBasesOf rest ++ [final]).Nodup := hsplit.2
    have hmem : commit r b ∈ commitBasesOf rest ++ [final] := chunked_start_mem htail
    have hne : commit r b ≠ r := fun hc => hr (hc ▸ hmem)
    have hadd : addRoot [r] (commit r b) = [r, commit r b] := by
      simp [addRoot, hne]
    have hfilter :
        [r, commit r b].filter (fun x => decide (x ∉ [r])) = [commit r b] := by
      simp [List.filter, hne]
    calc replayRetained [r]
          (StoreOp.commitOp r b :: StoreOp.pruneOp [r] :: StoreOp.removePrunedEntries :: rest)
        = replayRetained ((addRoot [r] (commit r b)).filter (fun x => decide (x ∉ [r]))) rest := by
          simp [replayRetained]
      _ = replayRetained [commit r b] rest := by rw [hadd, hfilter]
      _ = [final] := ih hnd'

/-- Claim C3 (amended): the destination trace of the copy loop is a
sequence of batch triples, each committing onto the current root, then
pruning that previous root, then reclaiming the pruned entries; the pruned
roots are exactly the commit bases (every root prior to each commit), so
that, whenever the chained roots are pairwise distinct — in particular
whenever every batch, including the unconditional final flush, changes the
root — replaying the trace over the retained roots of the destination
leaves only the final root retained.  When the final flush commits an
empty remainder batch the final root coincides with the previous root and
is itself pruned (see the counterexample below). -/
theorem copy_state_prunes_intermediate_roots (entries : List KV) (destInit : Root)
    (hnd : (commitBasesOf (copyStateGo entries 0 destInit []).2
        ++ [(copyStateGo entries 0 destInit []).1]).Nodup) :
    ChunkedTrace destInit (copyStateGo entries 0 destInit []).2
        (copyStateGo entries 0 destInit []).1 ∧
    prunedRootsOf (copyStateGo entries 0 destInit []).2 =
        commitBasesOf (copyStateGo entries 0 destInit []).2 ∧
    replayRetained [destInit] (copyStateGo entries 0 destInit []).2 =
        [(copyStateGo entries 0 destInit []).1] := by
  have hc := copyStateGo_chunked entries 0 destInit []
  exact ⟨hc, chunked_pruned_eq_bases hc, chunked_retained hc hnd⟩

/-- Witness for copy_state_prunes_intermediate_roots on a one-entry source
and an empty destination. -/
theorem copy_state_prunes_intermediate_roots_witness :
    ChunkedTrace [] (copyStateGo [("a", [1])] 0 ([] : Root) []).2
        (copyStateGo [("a", [1])] 0 ([] : Root) []).1 ∧
    prunedRootsOf (copyStateGo [("a", [1])] 0 ([] : Root) []).2 =
        commitBasesOf (copyStateGo [("a", [1])] 0 ([] : Root) []).2 ∧
    replayRetained [([] : Root)] (copyStateGo [("a", [1])] 0 ([] : Root) []).2 =
        [(copyStateGo [("a", [1])] 0 ([] : Root) []).1] :=
  copy_state_prunes_intermediate_roots [("a", [1])] [] (by decide)

/-- Counterexample to claim C3 as stated: when the enumeration yields no
entries (entry counts that are positive multiples of 1001 behave the same
way), the unconditional final flush commits an empty remainder batch,
which leaves the root unchanged, and then prunes that very root — the
final root itself.  The pruned roots are then exactly the final root and
replaying the trace retains nothing, refuting the unconditional conclusion
that after the migration only the final root is retained. -/
theorem copy_state_prunes_final_root_cex :
    (copyStateGo ([] : List KV) 0 ([] : Root) []).1 = ([] : Root) ∧
    prunedRootsOf (copyStateGo ([] : List KV) 0 ([] : Root) []).2 = [([] : Root)] ∧
    replayRetained [([] : Root)] (copyStateGo ([] : List KV) 0 ([] : Root) []).2 = [] := by
  decide

lemma copyStateGo_batches :
    ∀ (entries : List KV) (last : Root) (changes : List StateChange),
      changes.length ≤ 1000 →
      ∃ bs lastB,
        batchesOf (copyStateGo entries changes.length last changes).2 = bs ++ [lastB] ∧
        (∀ b ∈ bs, b.length = 1001) ∧
        lastB.length ≤ 1000 ∧
        (bs ++ [lastB]).flatten =
          changes ++ entries.map (fun kv => StateChange.set kv.1 kv.2) := by
  intro entries
  induction entries with
  | nil =>
    intro last changes hlen
    refine ⟨[], changes, ?_, by simp, hlen, by simp⟩
    simp [copyStateGo, write_and_prune_with_cleanup, batchesOf]
  | cons kv rest ih =>
    obtain ⟨k, v⟩ := kv
    intro last changes hlen
    by_cases h : changes.length + 1 > 1000
    · have h1000 : changes.length = 1000 := by omega
      simp only [copyStateGo, if_pos h, write_and_prune_with_cleanup]
      obtain ⟨bs', lastB', heq', hbs', hlast', hjoin'⟩ :=
        ih (commit last (changes ++ [StateChange.set k v])) [] (by simp)
      refine ⟨(changes ++ [StateChange.set k v]) :: bs', lastB', ?_, ?_, hlast', ?_⟩
      · simp only [batchesOf, List.filterMap_append, List.filterMap_cons] at heq' ⊢
        simp [batchesOf] at heq'
        simp [heq']
      · intro b hb
        rcases List.mem_cons.mp hb with hb | hb
        · subst hb; simp [h1000]
        · exact hbs' b hb
      · simp only [List.cons_append, List.flatten_cons] at hjoin' ⊢
        simp at hjoin'
        simp [hjoin']
    · have hlen' : (changes ++ [StateChange.set k v]).length ≤ 1000 := by
        simp; omega
      have hcount : (changes ++ [StateChange.set k v]).length = changes.length + 1 := by
        simp
      simp only [copyStateGo, if_neg h]
      obtain ⟨bs', lastB', heq', hbs', hlast', hjoin'⟩ := ih last (changes ++ [StateChange.set k v]) hlen'
      rw [hcount] at heq'
      refine ⟨bs', lastB', heq', hbs', hlast', ?_⟩
      rw [hjoin']
      simp

/-- Claim C4 (amended): the copy loop partitions the enumerated entries
into full batches of 1001 entries each (the flush fires when the running
count exceeds 1000, that is, after the 1001st push), followed by one final
batch of at most 1000 entries (possibly empty); the concatenation of the
committed batches is exactly the entry sequence as Set changes, so no
committed batch exceeds 1001 entries. -/
theorem copy_state_batches_bounded (entries : List KV) (destInit : Root) :
    ∃ bs lastB,
      batchesOf (copyStateGo entries 0 destInit []).2 = bs ++ [lastB] ∧
      (∀ b ∈ bs, b.length = 1001) ∧
      lastB.length ≤ 1000 ∧
      (bs ++ [lastB]).flatten = entries.map (fun kv => StateChange.set kv.1 kv.2) := by
  simpa using copyStateGo_batches entries destInit [] (by simp)

/-- Witness for copy_state_batches_bounded on a one-entry source. -/
theorem copy_state_batches_bounded_witness :
    ∃ bs lastB,
      batchesOf (copyStateGo [("a", [1])] 0 ([] : Root) []).2 = bs ++ [lastB] ∧
      (∀ b ∈ bs, b.length = 1001) ∧
      lastB.length ≤ 1000 ∧
      (bs ++ [lastB]).flatten = [("a", ([1] : List Nat))].map (fun kv => StateChange.set kv.1 kv.2) :=
  copy_state_batches_bounded [("a", [1])] []

/-- Counterexample to claim C4 as stated: on a source of 1001 entries the
loop commits a first batch of 1001 entries, exceeding the claimed bound of
1000 per committed batch. -/
theorem copy_state_batch_size_cex :
    ¬ (∀ b ∈ batchesOf
          (copyStateGo (List.replicate 1001 ("k", ([] : List Nat))) 0 ([] : Root) []).2,
        b.length ≤ 1000) := by
  intro hall
  obtain ⟨bs, lastB, heq, hbs, hlast, hjoin⟩ :=
    copyStateGo_batches (List.replicate 1001 ("k", ([] : List Nat))) ([] : Root) []
      (by simp)
  simp only [List.length_nil, List.nil_append] at heq hjoin
  have hlen : (bs ++ [lastB]).flatten.length = 1001 := by
    rw [hjoin]; simp
  cases bs with
  | nil =>
    simp at hlen
    omega
  | cons b bs' =>
    have hb1001 : b.length = 1001 := hbs b (by simp)
    have hble : b.length ≤ 1000 := by
      refine hall b ?_
      rw [heq]
      simp
    omega

lemma chunked_no_deleteTree {r : Root} {ops : List StoreOp} {f : Root}
    (h : ChunkedTrace r ops f) : StoreOp.deleteTree ∉ ops := by
  induction h with
  | nil => simp
  | step r b rest final htail ih => simp [ih]

lemma migrateService_run_eq (force destHasTree : Bool) (ch : Root) (entries : List KV)
    (destInit : Root) (hcond : (!force && destHasTree) = false) :
    migrateService false force (some ch) destHasTree entries destInit =
      if (copyStateGo entries 0 destInit []).1 = ch then
        (Except.ok (), (if force then ([] : Trace) else [(Side.dest, StoreOp.hasTree)])
          ++ ((Side.source, StoreOp.filterIter ch) :: (Side.dest, StoreOp.getStateRoot)
              :: ((copyStateGo entries 0 destInit []).2.map fun op => (Side.dest, op)))
          ++ [(Side.source, StoreOp.deleteTree)])
      else
        (Except.error MigErr.hashMismatch,
          (if force then ([] : Trace) else [(Side.dest, StoreOp.hasTree)])
          ++ ((Side.source, StoreOp.filterIter ch) :: (Side.dest, StoreOp.getStateRoot)
              :: ((copyStateGo entries 0 destInit []).2.map fun op => (Side.dest, op)))
          ++ [(Side.dest, StoreOp.deleteTree)]) := by
  by_cases heq : (copyStateGo entries 0 destInit []).1 = ch <;>
    simp [migrateService, hcond, copy_state, heq]

/-- Claim C1: after the final batch, the resulting destination root is
compared to the expected root (the current commit hash of the source);
when they are equal the migration of the service succeeds and the source
tree is deleted while the destination tree is not, and when they differ a
hash-mismatch error is returned, the destination tree is deleted, and the
only operation ever performed on the source is the read-only enumeration. -/
theorem migrate_hash_check_moves_or_rolls_back
    (force destHasTree : Bool) (ch : Root) (entries : List KV) (destInit : Root)
    (hpre : force = true ∨ destHasTree = false) :
    ((copyStateGo entries 0 destInit []).1 = ch →
      (migrateService false force (some ch) destHasTree entries destInit).1 = Except.ok () ∧
      (Side.source, StoreOp.deleteTree) ∈
        (migrateService false force (some ch) destHasTree entries destInit).2 ∧
      (Side.dest, StoreOp.deleteTree) ∉
        (migrateService false force (some ch) destHasTree entries destInit).2) ∧
    ((copyStateGo entries 0 destInit []).1 ≠ ch →
      (migrateService false force (some ch) destHasTree entries destInit).1 =
        Except.error MigErr.hashMismatch ∧
      (Side.dest, StoreOp.deleteTree) ∈
        (migrateService false force (some ch) destHasTree entries destInit).2 ∧
      ∀ op : StoreOp,
        (Side.source, op) ∈ (migrateService false force (some ch) destHasTree entries destInit).2 →
          op = StoreOp.filterIter ch) := by
  have hcond : (!force && destHasTree) = false := by
    rcases hpre with h | h <;> simp [h]
  have hrw := migrateService_run_eq force destHasTree ch entries destInit hcond
  constructor
  · intro heq
    rw [hrw, if_pos heq]
    refine ⟨rfl, by simp, ?_⟩
    intro hmem
    have hnodel := chunked_no_deleteTree (copyStateGo_chunked entries 0 destInit [])
    cases force <;> simp_all
  · intro hne
    rw [hrw, if_neg hne]
    refine ⟨rfl, by simp, ?_⟩
    intro op hmem
    cases force <;> simp_all

/-- Witness for migrate_hash_check_moves_or_rolls_back: a one-entry source
whose commit hash matches the recomputed destination root, so the service
migrates and the source tree is deleted. -/
theorem migrate_hash_check_moves_or_rolls_back_witness :
    (migrateService false false (some [("a", [1])]) false [("a", [1])] []).1 = Except.ok () ∧
    (Side.source, StoreOp.deleteTree) ∈
      (migrateService false false (some [("a", [1])]) false [("a", [1])] []).2 ∧
    (Side.dest, StoreOp.deleteTree) ∉
      (migrateService false false (some [("a", [1])]) false [("a", [1])] []).2 :=
  (migrate_hash_check_moves_or_rolls_back false false [("a", [1])] [("a", [1])] []
    (Or.inr rfl)).1 (by decide)

/-- Claim C6: when the destination already holds a Merkle tree for the
circuit-service and the force flag is not given, the migration of that
service is rejected with a conflict error and the only store operation
performed beforehand is the non-mutating has_tree check: neither store is
mutated. -/
theorem conflict_rejected_before_mutation (dry_run : Bool) (ch : Root)
    (entries : List KV) (destInit : Root) :
    migrateService dry_run false (some ch) true entries destInit =
      (Except.error MigErr.conflict, [(Side.dest, StoreOp.hasTree)]) ∧
    isMutation StoreOp.hasTree = false := by
  exact ⟨by simp [migrateService], rfl⟩

lemma migrateService_dry_ops (force : Bool) (commitHash : Option Root) (destHasTree : Bool)
    (entries : List KV) (destInit : Root) :
    ∀ p ∈ (migrateService true force commitHash destHasTree entries destInit).2,
      p = (Side.dest, StoreOp.hasTree) := by
  cases commitHash with
  | none => simp [migrateService]
  | some ch =>
    cases force <;> by_cases h : destHasTree <;> simp [migrateService, h]

lemma servicesLoop_dry_ops (force : Bool) :
    ∀ services : List ServiceInput,
      ∀ p ∈ (servicesLoop true force services).2, p = (Side.dest, StoreOp.hasTree) := by
  intro services
  induction services with
  | nil => simp [servicesLoop]
  | cons s rest ih =>
    intro p hp
    cases hr : (migrateService true force s.commitHash s.destHasTree s.entries s.destInit).1 with
    | ok v =>
      simp only [servicesLoop, hr] at hp
      rcases List.mem_append.mp hp with hp | hp
      · exact migrateService_dry_ops force s.commitHash s.destHasTree s.entries s.destInit p hp
      · exact ih p hp
    | error e =>
      simp only [servicesLoop, hr] at hp
      exact migrateService_dry_ops force s.commitHash s.destHasTree s.entries s.destInit p hp

lemma stateMigrateRun_dry_ops (in_database out_database : String) (force : Bool)
    (services : List ServiceInput) :
    ∀ p ∈ (stateMigrateRun in_database out_database true force services).2,
      p = (Side.dest, StoreOp.hasTree) := by
  intro p hp
  by_cases h1 : lowerStr in_database = "lmdb" ∧ lowerStr out_database = "lmdb"
  · simp [stateMigrateRun, h1] at hp
  · by_cases h2 : lowerStr out_database = "lmdb"
    · simp only [stateMigrateRun, if_neg h1, if_pos h2] at hp
      exact servicesLoop_dry_ops force services p hp
    · by_cases h3 : lowerStr in_database = "lmdb"
      · simp only [stateMigrateRun, if_neg h1, if_neg h2, if_pos h3] at hp
        exact servicesLoop_dry_ops force services p hp
      · simp [stateMigrateRun, h1, h2, h3] at hp

/-- Claim C2 (amended): a state-migrate run with the dry-run flag set
performs only the per-service pre-flight checks; every store operation in
its trace is the non-mutating destination has_tree check, so commit, prune
and delete_tree are indeed never invoked, but the read and verify path
(source enumeration via filter_iter and the root comparison) is skipped as
well. -/
theorem dry_run_only_preflight (in_database out_database : String) (force : Bool)
    (services : List ServiceInput) :
    ((stateMigrateRun in_database out_database true force services).2.all
      (fun p => decide (p = (Side.dest, StoreOp.hasTree)))) = true := by
  rw [List.all_eq_true]
  intro p hp
  simpa using stateMigrateRun_dry_ops in_database out_database force services p hp

/-- Counterexample to claim C2 as stated: for a dry run over one migratable
service the trace consists of the pre-flight has_tree check only; in
particular the source enumeration from the current commit hash, which the
claim says is performed, never happens. -/
theorem dry_run_skips_enumeration_cex :
    (stateMigrateRun "postgres" "lmdb" true false
        [⟨some [("a", [1])], false, [("a", [1])], []⟩]).2 = [(Side.dest, StoreOp.hasTree)] ∧
    (Side.source, StoreOp.filterIter [("a", [1])]) ∉
      (stateMigrateRun "postgres" "lmdb" true false
        [⟨some [("a", [1])], false, [("a", [1])], []⟩]).2 := by
  constructor
  · decide
  · decide

/-- Claim C10: the state-migrate run proceeds to the per-service loop
exactly when one of the two lowercased backend identifiers equals lmdb and
the other does not; when both or neither are lmdb the run is rejected with
an unsupported-backends error and an empty trace, before any store is
touched. -/
theorem state_migrate_requires_single_lmdb (in_database out_database : String)
    (dry_run force : Bool) (services : List ServiceInput) :
    (((lowerStr in_database = "lmdb") ↔ (lowerStr out_database = "lmdb")) →
      stateMigrateRun in_database out_database dry_run force services =
        (Except.error MigErr.unsupportedBackends, [])) ∧
    (¬((lowerStr in_database = "lmdb") ↔ (lowerStr out_database = "lmdb")) →
      stateMigrateRun in_database out_database dry_run force services =
        servicesLoop dry_run force services) := by
  constructor
  · intro hiff
    by_cases h1 : lowerStr in_database = "lmdb"
    · have h2 := hiff.mp h1
      simp [stateMigrateRun, h1, h2]
    · have h2 : ¬lowerStr out_database = "lmdb" := fun h => h1 (hiff.mpr h)
      simp [stateMigrateRun, h1, h2]
  · intro hniff
    by_cases h1 : lowerStr in_database = "lmdb"
    · have h2 : ¬lowerStr out_database = "lmdb" := fun h => hniff (iff_of_true h1 h)
      simp [stateMigrateRun, h1, h2]
    · have h2 : lowerStr out_database = "lmdb" := by
        by_contra h
        exact hniff (iff_of_false h1 h)
      simp [stateMigrateRun, h1, h2]

/-- Witness for state_migrate_requires_single_lmdb: LMDB to LMDB (compared
case-insensitively) is rejected, and postgres to LMDB proceeds to the
service loop. -/
theorem state_migrate_requires_single_lmdb_witness :
    stateMigrateRun "lmdb" "LMDB" false false [] =
      (Except.error MigErr.unsupportedBackends, []) ∧
    stateMigrateRun "postgres" "lmdb" false false [] = servicesLoop false false [] :=
  ⟨(state_migrate_requires_single_lmdb "lmdb" "LMDB" false false []).1 (by decide),
   (state_migrate_requires_single_lmdb "postgres" "lmdb" false false []).2 (by decide)⟩

/-- The CLI error type, as far as the builder paths modelled here use it
(roles.rs uses CliError::ActionError with a message). -/
inductive CliError where
  | actionError (msg : String)
deriving DecidableEq, Repr

/-- A role record (roles.rs lines 25-30). -/
structure Role where
  role_id : String
  display_name : String
  permissions : List String
deriving DecidableEq, Repr

/-- The staged role builder (roles.rs lines 53-58); Default leaves both
optional fields unset and the permissions empty. -/
structure RoleBuilder where
  role_id : Option String := none
  display_name : Option String := none
  permissions : List String := []
deriving DecidableEq, Repr

/-- Embedding of RoleBuilder::build (roles.rs lines 84-112): reject empty
permissions, then an unset role id, then a blank role id (is_empty on a
string is the comparison with the empty string), then an unset display
name; otherwise produce the Role from the accumulated fields. -/
def RoleBuilder.build (b : RoleBuilder) : Except CliError Role :=
  if b.permissions = [] then
    Except.error (CliError.actionError "A role must have at least one permission")
  else
    match b.role_id with
    | none => Except.error (CliError.actionError "A role must have a role ID")
    | some role_id =>
      if role_id = "" then
        Except.error (CliError.actionError "A role ID must not be blank")
      else
        match b.display_name with
        | none => Except.error (CliError.actionError "A role must have a display name")
        | some display_name => Except.ok ⟨role_id, display_name, b.permissions⟩

/-- Claim C8: build performs all the invariant checks at its single
finalization point: it errors on an empty permissions list, an unset role
id, a blank role id, or an unset display name, and for every non-blank
role id, every display name (possibly empty) and every non-empty
permissions list it returns a Role carrying exactly those field values. -/
theorem role_builder_build_validates :
    (∀ b : RoleBuilder, b.permissions = [] →
      RoleBuilder.build b =
        Except.error (CliError.actionError "A role must have at least one permission")) ∧
    (∀ b : RoleBuilder, b.role_id = none → ∃ e, RoleBuilder.build b = Except.error e) ∧
    (∀ b : RoleBuilder, b.role_id = some "" → ∃ e, RoleBuilder.build b = Except.error e) ∧
    (∀ b : RoleBuilder, b.display_name = none → ∃ e, RoleBuilder.build b = Except.error e) ∧
    (∀ (rid dn : String) (ps : List String), rid ≠ "" → ps ≠ [] →
      RoleBuilder.build ⟨some rid, some dn, ps⟩ = Except.ok ⟨rid, dn, ps⟩) := by
  refine ⟨?_, ?_, ?_, ?_, ?_⟩
  · intro b h
    simp [RoleBuilder.build, h]
  · intro b h
    by_cases hp : b.permissions = []
    · exact ⟨CliError.actionError "A role must have at least one permission",
        by simp [RoleBuilder.build, hp]⟩
    · exact ⟨CliError.actionError "A role must have a role ID",
        by simp [RoleBuilder.build, hp, h]⟩
  · intro b h
    by_cases hp : b.permissions = []
    · exact ⟨CliError.actionError "A role must have at least one permission",
        by simp [RoleBuilder.build, hp]⟩
    · exact ⟨CliError.actionError "A role ID must not be blank",
        by simp [RoleBuilder.build, hp, h]⟩
  · intro b h
    by_cases hp : b.permissions = []
    · exact ⟨CliError.actionError "A role must have at least one permission",
        by simp [RoleBuilder.build, hp]⟩
    · cases hrid : b.role_id with
      | none => exact ⟨CliError.actionError "A role must have a role ID",
          by simp [RoleBuilder.build, hp, hrid]⟩
      | some rid =>
        by_cases hblank : rid = ""
        · exact ⟨CliError.actionError "A role ID must not be blank",
            by simp [RoleBuilder.build, hp, hrid, hblank]⟩
        · exact ⟨CliError.actionError "A role must have a display name",
            by simp [RoleBuilder.build, hp, hrid, hblank, h]⟩
  · intro rid dn ps hrid hps
    simp [RoleBuilder.build, hps, hrid]

/-- Witness for role_builder_build_validates on the concrete valid role of
the source test. -/
theorem role_builder_build_validates_witness :
    RoleBuilder.build ⟨some "valid_role", some "Valid Role", ["a", "b"]⟩ =
      Except.ok ⟨"valid_role", "Valid Role", ["a", "b"]⟩ :=
  role_builder_build_validates.2.2.2.2 "valid_role" "Valid Role" ["a", "b"]
    (by decide) (by decide)

/-- A service identifier, the recipient of a message
(libsplinter service ServiceId, a validated string). -/
abbrev SvcId := String

/-- Embedding of IntoMessageSender::send (message_sender.rs lines 57-63):
translate the message with the converter to_right and delegate to the
inner sender; the question-mark operator returns a translation error
without calling the inner sender.  The second component records the
invocations of the inner sender. -/
def IntoMessageSender.send {L R : Type}
    (to_right : L → Except String R)
    (inner_send : SvcId → R → Except String Unit)
    (to_service : SvcId) (message : L) :
    Except String Unit × List (SvcId × R) :=
  match to_right message with
  | Except.ok translated => (inner_send to_service translated, [(to_service, translated)])
  | Except.error e => (Except.error e, [])

/-- Claim C9: send first translates the message with to_right; on success
it delegates to the inner sender exactly once with the recipient and the
translated message unchanged and returns its result, and on translation
failure it returns the error and never invokes the inner sender. -/
theorem into_message_sender_send_translates {L R : Type}
    (to_right : L → Except String R) (inner_send : SvcId → R → Except String Unit)
    (to_service : SvcId) (message : L) :
    (∀ translated, to_right message = Except.ok translated →
      IntoMessageSender.send to_right inner_send to_service message =
        (inner_send to_service translated, [(to_service, translated)])) ∧
    (∀ e, to_right message = Except.error e →
      IntoMessageSender.send to_right inner_send to_service message =
        (Except.error e, [])) := by
  constructor
  · intro translated h
    simp [IntoMessageSender.send, h]
  · intro e h
    simp [IntoMessageSender.send, h]

/-- Witness for into_message_sender_send_translates with a concrete
converter that fails on 0 and increments otherwise. -/
theorem into_message_sender_send_translates_witness :
    IntoMessageSender.send
        (fun n : Nat => if n = 0 then Except.error "bad" else Except.ok (n + 1))
        (fun _ _ => Except.ok ()) "svc" 1 = (Except.ok (), [("svc", 2)]) ∧
    IntoMessageSender.send
        (fun n : Nat => if n = 0 then Except.error "bad" else Except.ok (n + 1))
        (fun _ _ => Except.ok ()) "svc" 0 = (Except.error "bad", []) :=
  ⟨(into_message_sender_send_translates
      (fun n : Nat => if n = 0 then Except.error "bad" else Except.ok (n + 1))
      (fun _ _ => Except.ok ()) "svc" 1).1 2 (by rfl),
   (into_message_sender_send_translates
      (fun n : Nat => if n = 0 then Except.error "bad" else Except.ok (n + 1))
      (fun _ _ => Except.ok ()) "svc" 0).2 "bad" (by rfl)⟩
